import Mathlib

/-!
Shallow embedding of the `code-stats` command-line utility (Go).

The program recursively scans a directory tree, counts files, lines,
empty lines and comment lines per file extension, and aggregates them
in a mutex-guarded `Counter`.  File contents are modelled as
`List Char`; a file that cannot be read is modelled as `none`.
The concurrent fan-out of `scanDirWithProgress` is modelled as a
sequential fold: every spawned task performs exactly one
`Counter.Inc`, and the final snapshot is read after the join barrier,
so the aggregate is the fold of the per-file increments (order
independence of that fold is itself one of the verified claims).
`int64` counters are modelled as `Int`; the increments are unit file
counts and line counts of concrete files, far below 2^63, so wrap-around
is unreachable and not modelled.
-/

namespace CodeStats

/-- Go `unicode.IsSpace`, the pointwise predicate behind
`strings.TrimSpace`: ASCII whitespace plus the Unicode white-space
code points (Zs category, NEL, NBSP, line/paragraph separators). -/
def isSpace (c : Char) : Bool :=
  c = '\t' || c = '\n' || c = '\u000b' || c = '\u000c' || c = '\r' || c = ' ' ||
  c = '\u0085' || c = '\u00a0' || c = '\u1680' ||
  ('\u2000' ≤ c && c ≤ '\u200a') ||
  c = '\u2028' || c = '\u2029' || c = '\u202f' || c = '\u205f' || c = '\u3000'

/-- Go `strings.TrimSpace`: drop leading and trailing whitespace. -/
def trimSpace (l : List Char) : List Char :=
  ((l.dropWhile isSpace).reverse.dropWhile isSpace).reverse

/-- Go `strings.Split(content, "\n")`: the list of newline-separated
segments.  Always nonempty; splitting the empty content gives one
empty segment, and a trailing newline yields a final empty segment. -/
def splitLines : List Char → List (List Char)
  | [] => [[]]
  | c :: cs =>
    match splitLines cs with
    | [] => [[]]
    | l :: ls => if c = '\n' then [] :: l :: ls else (c :: l) :: ls

/-- `parser.GoCommentParser.IsComment` (src/parser/comment_parser.go):
after trimming whitespace, the line starts with `//`, `/*`, `*` or `*/`. -/
def goIsComment (line : List Char) : Bool :=
  let trimmed := trimSpace line
  ['/', '/'].isPrefixOf trimmed || ['/', '*'].isPrefixOf trimmed ||
  ['*'].isPrefixOf trimmed || ['*', '/'].isPrefixOf trimmed

/-- `parser.JsCommentParser.IsComment`: textually identical to the Go
predicate (the source keeps two separate, identical implementations). -/
def jsIsComment (line : List Char) : Bool :=
  let trimmed := trimSpace line
  ['/', '/'].isPrefixOf trimmed || ['/', '*'].isPrefixOf trimmed ||
  ['*'].isPrefixOf trimmed || ['*', '/'].isPrefixOf trimmed

/-- `parser.CommentParsers`: the registry mapping an extension to its
comment-detection predicate; extensions outside the registry have none. -/
def CommentParsers (ext : String) : Option (List Char → Bool) :=
  if ext = ".go" then some goIsComment
  else if ext = ".js" then some jsIsComment
  else if ext = ".ts" then some jsIsComment
  else if ext = ".jsx" then some jsIsComment
  else if ext = ".tsx" then some jsIsComment
  else none

/-- `countLines` (src/main.go): a failed read logs and returns 0; a
successful read returns the number of newline-split segments. -/
def countLines (content? : Option (List Char)) : Nat :=
  match content? with
  | none => 0
  | some content => (splitLines content).length

/-- `countEmptyLines` (src/main.go): a failed read returns 0; otherwise
the number of segments that are empty after trimming whitespace. -/
def countEmptyLines (content? : Option (List Char)) : Nat :=
  match content? with
  | none => 0
  | some content => (splitLines content).countP (fun l => (trimSpace l).isEmpty)

/-- `countCommentLines` (src/main.go): 0 when the extension has no
registered predicate; otherwise a failed read returns 0 and a
successful read counts the lines satisfying the predicate. -/
def countCommentLines (ext : String) (content? : Option (List Char)) : Nat :=
  match CommentParsers ext with
  | none => 0
  | some p =>
    match content? with
    | none => 0
    | some content => (splitLines content).countP p

/-- A Go `map[string]int64`, modelled extensionally as an association
list; a missing key reads as 0, exactly as Go map indexing does. -/
def lookupD (m : List (String × Int)) (k : String) : Int :=
  (m.lookup k).getD 0

/-- `m[k] += d` on a Go `map[string]int64`: add to the existing entry,
or insert `d` when the key is absent (the absent key reads as 0). -/
def mapIncr (m : List (String × Int)) (k : String) (d : Int) : List (String × Int) :=
  match m with
  | [] => [(k, d)]
  | (k', v) :: rest => if k' = k then (k', v + d) :: rest else (k', v) :: mapIncr rest k d

/-- Sum of the values of a map (the loop in `Counter.Lines`). -/
def sumValues (m : List (String × Int)) : Int :=
  (m.map Prod.snd).sum

/-- The `Counter` aggregator (src/main.go).  The `sync.Mutex` makes
each Go method one atomic step; here every method is one function
application, which models exactly that granularity. -/
structure Counter where
  total : Int
  totalFiles : Int
  emptyLines : Int
  commentLinesByExt : List (String × Int)
  linesByExt : List (String × Int)
  byExt : List (String × Int)
deriving Repr, DecidableEq

/-- `NewCounter`: all scalars zero, all maps empty. -/
def NewCounter : Counter :=
  { total := 0, totalFiles := 0, emptyLines := 0,
    commentLinesByExt := [], linesByExt := [], byExt := [] }

/-- `Counter.Inc`: the single critical section incrementing the file
totals by one, the per-extension maps by the given deltas, and the
empty-line total. -/
def Counter.Inc (c : Counter) (ext : String) (lines emptyLines commentLines : Int) : Counter :=
  { total := c.total + 1
    totalFiles := c.totalFiles + 1
    byExt := mapIncr c.byExt ext 1
    linesByExt := mapIncr c.linesByExt ext lines
    emptyLines := c.emptyLines + emptyLines
    commentLinesByExt := mapIncr c.commentLinesByExt ext commentLines }

/-- `Counter.Value`. -/
def Counter.Value (c : Counter) : Int := c.total

/-- `Counter.Lines`: sums the per-extension line totals. -/
def Counter.Lines (c : Counter) : Int := sumValues c.linesByExt

/-- `Counter.EmptyLines`. -/
def Counter.EmptyLines (c : Counter) : Int := c.emptyLines

/-- `Counter.ExtCounts`: returns a copy of the per-extension file-count
map; copying is the identity on the map's value (the reference-level
copy semantics are captured by the heap model below). -/
def Counter.ExtCounts (c : Counter) : List (String × Int) := c.byExt

/-- `Counter.LinesByExt`: returns the live per-extension line map. -/
def Counter.LinesByExt (c : Counter) : List (String × Int) := c.linesByExt

/-- `Counter.CommentLinesByExt`: returns the live comment map. -/
def Counter.CommentLinesByExt (c : Counter) : List (String × Int) := c.commentLinesByExt

/-- `shouldIgnoreDir` (src/main.go): linear scan for an exact name match. -/
def shouldIgnoreDir (name : String) (ignoreList : List String) : Bool :=
  match ignoreList with
  | [] => false
  | ignore :: rest => if name = ignore then true else shouldIgnoreDir name rest

/-- `filepath.Ext` on a basename: the suffix starting at the last dot,
`""` when the name has no dot.  `extAux` scans the reversed name for
the first dot, accumulating the characters after it. -/
def extAux : List Char → Option (List Char)
  | [] => none
  | c :: rest =>
    if c = '.' then some ['.'] else (extAux rest).map (fun e => e ++ [c])

/-- The extension of a file basename, with the leading dot. -/
def fileExt (name : String) : String :=
  match extAux name.data.reverse with
  | none => ""
  | some e => String.mk e

/-- `fileExtensions` (src/main.go): the default include set. -/
def fileExtensions : List String :=
  [".go", ".rs", ".js", ".ts", ".html", ".css", ".json", ".md", ".txt", ".yaml",
   ".yml", ".toml", ".ini", ".env", ".sh", ".bash", ".zsh", ".fish", ".ps1",
   ".psm1", ".psd1", ".pssc", ".psscx", ".psscy", ".psscz", ".pssc0", ".pssc1",
   ".pssc2", ".pssc3", ".pssc4", ".pssc5", ".pssc6", ".pssc7", ".pssc8",
   ".pssc9", ".pssc10"]

/-- `ignoreDirs` (src/main.go): the default ignore set. -/
def ignoreDirs : List String :=
  [".git", ".idea", ".vscode", ".DS_Store", "build", "dist", "node_modules",
   "vendor", "tmp", "logs", "cache", ".next", ".venv"]

/-- A directory entry: a regular file with its (possibly unreadable)
content, or a subdirectory with its entries. -/
inductive Entry where
  | file (name : String) (content? : Option (List Char))
  | dir (name : String) (entries : List Entry)
deriving Repr

/-- The body of the per-file task in `scanDirWithProgress`: measure the
three counts and deliver them through one `Counter.Inc` — note the
increment happens whether or not the reads succeeded. -/
def processFile (ext : String) (content? : Option (List Char)) (c : Counter) : Counter :=
  c.Inc ext (countLines content?) (countEmptyLines content?) (countCommentLines ext content?)

mutual
/-- One iteration of the entry loop of `scanDirWithProgress`: recurse
into a non-ignored directory, measure a file with an included
extension, skip everything else. -/
def scanEntry (exts igns : List String) (e : Entry) (c : Counter) : Counter :=
  match e with
  | .file name content? =>
    if exts.contains (fileExt name) then processFile (fileExt name) content? c else c
  | .dir name entries =>
    if shouldIgnoreDir name igns then c else scanEntries exts igns entries c

/-- `scanDirWithProgress` over a directory's listed entries.  The Go
code dispatches one task per entry and joins them at the barrier in
`runStats`; since each task is a single `Counter.Inc`, the joined
result is the fold of the increments (order irrelevance is proved as
the idempotence claim). -/
def scanEntries (exts igns : List String) (es : List Entry) (c : Counter) : Counter :=
  match es with
  | [] => c
  | e :: rest => scanEntries exts igns rest (scanEntry exts igns e c)
end

/-- A sequence of `Counter.Inc` calls (extension, line count,
empty-line count, comment-line count), applied in order; the join
barrier in `runStats` guarantees the final snapshot is the result of
all dispatched increments. -/
def applyCalls (c : Counter) (calls : List (String × Int × Int × Int)) : Counter :=
  match calls with
  | [] => c
  | q :: rest => applyCalls (c.Inc q.1 q.2.1 q.2.2.1 q.2.2.2) rest

/-- Observational equality of two counters: every reported quantity
(the scalar totals, the three per-extension maps read pointwise, and
the derived line total) agrees.  This is equality of Go maps, which
are unordered, so pointwise reads are the right notion. -/
def CounterEquiv (c₁ c₂ : Counter) : Prop :=
  c₁.Value = c₂.Value ∧ c₁.totalFiles = c₂.totalFiles ∧
  c₁.EmptyLines = c₂.EmptyLines ∧ c₁.Lines = c₂.Lines ∧
  (∀ e, lookupD c₁.ExtCounts e = lookupD c₂.ExtCounts e) ∧
  (∀ e, lookupD c₁.LinesByExt e = lookupD c₂.LinesByExt e) ∧
  (∀ e, lookupD c₁.CommentLinesByExt e = lookupD c₂.CommentLinesByExt e)

/-- A heap of allocated Go maps: Go maps are reference values, so the
`Counter`'s map fields are references into this heap.  `next` is the
next fresh reference; every allocated reference is below it. -/
structure Heap where
  maps : Nat → List (String × Int)
  next : Nat

/-- Dereference a map. -/
def Heap.read (h : Heap) (r : Nat) : List (String × Int) := h.maps r

/-- Mutate the map behind a reference (what a caller does when it
writes into a returned map). -/
def Heap.write (h : Heap) (r : Nat) (m : List (String × Int)) : Heap :=
  { h with maps := fun r' => if r' = r then m else h.maps r' }

/-- Allocate a fresh map (Go `make(map[string]int64)`), returning its
reference. -/
def Heap.alloc (h : Heap) (m : List (String × Int)) : Nat × Heap :=
  (h.next, { maps := fun r' => if r' = h.next then m else h.maps r', next := h.next + 1 })

/-- The `Counter` at the reference level: the three map fields hold
heap references, as Go map values do.  Used to settle the aliasing
behaviour of the accessors; the pure `Counter` above is this model
with the references dereferenced. -/
structure CounterRefs where
  total : Int
  totalFiles : Int
  emptyLines : Int
  commentLinesByExt : Nat
  linesByExt : Nat
  byExt : Nat

/-- Well-formedness: the counter's references are allocated. -/
def CounterRefs.wf (c : CounterRefs) (h : Heap) : Prop :=
  c.byExt < h.next ∧ c.linesByExt < h.next ∧ c.commentLinesByExt < h.next

/-- `Counter.ExtCounts` at the reference level: allocate a fresh map,
copy `byExt`'s entries into it, and return the fresh reference. -/
def CounterRefs.ExtCounts (c : CounterRefs) (h : Heap) : Nat × Heap :=
  h.alloc (h.read c.byExt)

/-- `Counter.LinesByExt` at the reference level: returns the internal
map's own reference, not a copy. -/
def CounterRefs.LinesByExt (c : CounterRefs) (_h : Heap) : Nat := c.linesByExt

/-- `Counter.CommentLinesByExt` at the reference level: returns the
internal map's own reference, not a copy. -/
def CounterRefs.CommentLinesByExt (c : CounterRefs) (_h : Heap) : Nat := c.commentLinesByExt

/-- A concrete reference-level counter for evaluating the aliasing
behaviour at one input. -/
def cRefsW : CounterRefs :=
  { total := 1, totalFiles := 1, emptyLines := 0,
    commentLinesByExt := 0, linesByExt := 1, byExt := 2 }

/-- A concrete heap in which `cRefsW` is well formed. -/
def heapW : Heap :=
  { maps := fun r => if r = 2 then [(".go", 1)] else [], next := 3 }

theorem splitLines_ne_nil (content : List Char) : splitLines content ≠ [] := by
  cases content with
  | nil => simp [splitLines]
  | cons c cs =>
    simp only [splitLines]
    cases h : splitLines cs with
    | nil => simp
    | cons l ls =>
      by_cases hc : c = '\n' <;> simp [hc]

theorem splitLines_length (content : List Char) :
    (splitLines content).length = content.count '\n' + 1 := by
  induction content with
  | nil => simp [splitLines]
  | cons c cs ih =>
    cases h : splitLines cs with
    | nil => exact absurd h (splitLines_ne_nil cs)
    | cons l ls =>
      rw [h] at ih
      by_cases hc : c = '\n'
      · subst hc
        rw [show splitLines ('\n' :: cs) = [] :: l :: ls by simp [splitLines, h]]
        rw [List.count_cons_self]
        simp only [List.length_cons] at ih ⊢
        omega
      · rw [show splitLines (c :: cs) = (c :: l) :: ls by simp [splitLines, h, hc]]
        rw [List.count_cons_of_ne (Ne.symm hc)]
        simpa using ih

theorem lookupD_mapIncr (m : List (String × Int)) (k k' : String) (d : Int) :
    lookupD (mapIncr m k d) k' = lookupD m k' + (if k' = k then d else 0) := by
  induction m with
  | nil =>
    by_cases h : k' = k
    · subst h; simp [mapIncr, lookupD, List.lookup_cons]
    · simp [mapIncr, lookupD, List.lookup_cons, beq_false_of_ne h, h]
  | cons kv rest ih =>
    obtain ⟨k₀, v₀⟩ := kv
    simp only [mapIncr]
    by_cases h₀ : k₀ = k
    · subst h₀
      by_cases h' : k' = k₀
      · subst h'; simp [lookupD, List.lookup_cons]
      · simp [lookupD, List.lookup_cons, beq_false_of_ne h', h']
    · rw [if_neg h₀]
      by_cases h' : k' = k₀
      · subst h'
        have hne : k' ≠ k := h₀
        simp [lookupD, List.lookup_cons, hne]
      · simp only [lookupD, List.lookup_cons, beq_false_of_ne h'] at ih ⊢
        simpa [lookupD] using ih

theorem sumValues_mapIncr (m : List (String × Int)) (k : String) (d : Int) :
    sumValues (mapIncr m k d) = sumValues m + d := by
  induction m with
  | nil => simp [mapIncr, sumValues]
  | cons kv rest ih =>
    obtain ⟨k₀, v₀⟩ := kv
    simp only [mapIncr]
    by_cases h₀ : k₀ = k
    · subst h₀; simp [sumValues]; ring
    · simp only [if_neg h₀, sumValues, List.map_cons, List.sum_cons] at *
      omega

theorem applyCalls_total (c : Counter) (calls : List (String × Int × Int × Int)) :
    (applyCalls c calls).total = c.total + calls.length := by
  induction calls generalizing c with
  | nil => simp [applyCalls]
  | cons q rest ih =>
    simp only [applyCalls, ih, Counter.Inc, List.length_cons]
    omega

theorem applyCalls_totalFiles (c : Counter) (calls : List (String × Int × Int × Int)) :
    (applyCalls c calls).totalFiles = c.totalFiles + calls.length := by
  induction calls generalizing c with
  | nil => simp [applyCalls]
  | cons q rest ih =>
    simp only [applyCalls, ih, Counter.Inc, List.length_cons]
    omega

theorem applyCalls_emptyLines (c : Counter) (calls : List (String × Int × Int × Int)) :
    (applyCalls c calls).emptyLines = c.emptyLines + (calls.map (fun q => q.2.2.1)).sum := by
  induction calls generalizing c with
  | nil => simp [applyCalls]
  | cons q rest ih =>
    simp only [applyCalls, ih, Counter.Inc, List.map_cons, List.sum_cons]
    omega

theorem applyCalls_byExt (c : Counter) (calls : List (String × Int × Int × Int)) (e : String) :
    lookupD (applyCalls c calls).byExt e
      = lookupD c.byExt e + (calls.map (fun q => if e = q.1 then (1 : Int) else 0)).sum := by
  induction calls generalizing c with
  | nil => simp [applyCalls]
  | cons q rest ih =>
    simp only [applyCalls, ih, Counter.Inc, List.map_cons, List.sum_cons, lookupD_mapIncr]
    omega

theorem applyCalls_linesByExt (c : Counter) (calls : List (String × Int × Int × Int))
    (e : String) :
    lookupD (applyCalls c calls).linesByExt e
      = lookupD c.linesByExt e + (calls.map (fun q => if e = q.1 then q.2.1 else 0)).sum := by
  induction calls generalizing c with
  | nil => simp [applyCalls]
  | cons q rest ih =>
    simp only [applyCalls, ih, Counter.Inc, List.map_cons, List.sum_cons, lookupD_mapIncr]
    omega

theorem applyCalls_commentLinesByExt (c : Counter) (calls : List (String × Int × Int × Int))
    (e : String) :
    lookupD (applyCalls c calls).commentLinesByExt e
      = lookupD c.commentLinesByExt e + (calls.map (fun q => if e = q.1 then q.2.2.2 else 0)).sum := by
  induction calls generalizing c with
  | nil => simp [applyCalls]
  | cons q rest ih =>
    simp only [applyCalls, ih, Counter.Inc, List.map_cons, List.sum_cons, lookupD_mapIncr]
    omega

theorem applyCalls_sumByExt (c : Counter) (calls : List (String × Int × Int × Int)) :
    sumValues (applyCalls c calls).byExt = sumValues c.byExt + calls.length := by
  induction calls generalizing c with
  | nil => simp [applyCalls]
  | cons q rest ih =>
    simp only [applyCalls, ih, Counter.Inc, List.length_cons, sumValues_mapIncr]
    omega

theorem applyCalls_sumLinesByExt (c : Counter) (calls : List (String × Int × Int × Int)) :
    sumValues (applyCalls c calls).linesByExt
      = sumValues c.linesByExt + (calls.map (fun q => q.2.1)).sum := by
  induction calls generalizing c with
  | nil => simp [applyCalls]
  | cons q rest ih =>
    simp only [applyCalls, ih, Counter.Inc, List.map_cons, List.sum_cons, sumValues_mapIncr]
    omega

/-- C2: for a file whose extension has a registered comment predicate,
if every line of the newline-split content satisfies that predicate
(each predicate trims the line before testing it), then the measured
comment-line count equals the measured total line count. -/
theorem c2_all_comment_lines_count_eq_total
    (ext : String) (p : List Char → Bool) (content : List Char)
    (hp : CommentParsers ext = some p)
    (hall : ∀ l ∈ splitLines content, p l = true) :
    countCommentLines ext (some content) = countLines (some content) := by
  unfold countCommentLines countLines
  rw [hp]
  exact List.countP_eq_length.mpr hall

theorem c2_witness :
    CommentParsers ".go" = some goIsComment
    ∧ countCommentLines ".go" (some ['/', '/', 'a', '\n', '/', '/', 'b'])
        = countLines (some ['/', '/', 'a', '\n', '/', '/', 'b']) :=
  ⟨rfl, c2_all_comment_lines_count_eq_total ".go" goIsComment
          ['/', '/', 'a', '\n', '/', '/', 'b'] rfl (by decide)⟩

/-- C4: a readable file's measured line count is its newline count
plus one, and the zero-byte file yields line count 1, empty-line
count 1 and comment-line count 0 for every extension. -/
theorem c4_line_count_is_newlines_plus_one :
    (∀ content : List Char, countLines (some content) = content.count '\n' + 1)
    ∧ countLines (some []) = 1
    ∧ countEmptyLines (some []) = 1
    ∧ (∀ ext : String, countCommentLines ext (some []) = 0) := by
  refine ⟨fun content => ?_, by decide, by decide, fun ext => ?_⟩
  · simpa [countLines] using splitLines_length content
  · unfold countCommentLines CommentParsers
    split_ifs <;> decide

/-- C5: a directory whose name is in the ignore set is skipped whole:
scanning it changes nothing, whatever files (of any extension, any
depth) live beneath it. -/
theorem c5_ignored_dir_contributes_nothing
    (name : String) (entries : List Entry) (exts igns : List String) (c : Counter)
    (h : shouldIgnoreDir name igns = true) :
    scanEntry exts igns (Entry.dir name entries) c = c := by
  simp [scanEntry, h]

theorem c5_witness :
    shouldIgnoreDir "node_modules" ignoreDirs = true
    ∧ scanEntry fileExtensions ignoreDirs
        (Entry.dir "node_modules"
          [Entry.file "deep.go" (some ['p', 'k', 'g']),
           Entry.dir "sub" [Entry.file "x.js" (some ['/', '/'])]])
        NewCounter = NewCounter :=
  ⟨by decide,
   c5_ignored_dir_contributes_nothing "node_modules"
     [Entry.file "deep.go" (some ['p', 'k', 'g']),
      Entry.dir "sub" [Entry.file "x.js" (some ['/', '/'])]]
     fileExtensions ignoreDirs NewCounter (by decide)⟩

/-- C6: an extension without a registered predicate yields zero
comment lines whatever the content; with a registered predicate the
comment count is exactly the number of newline-split lines satisfying
that predicate (which trims the line before testing). -/
theorem c6_no_predicate_zero_comments :
    (∀ (ext : String) (content? : Option (List Char)),
        CommentParsers ext = none → countCommentLines ext content? = 0)
    ∧ (∀ (ext : String) (p : List Char → Bool) (content : List Char),
        CommentParsers ext = some p →
        countCommentLines ext (some content) = (splitLines content).countP p) := by
  constructor
  · intro ext content? h
    unfold countCommentLines
    rw [h]
  · intro ext p content h
    unfold countCommentLines
    rw [h]

theorem c6_witness :
    countCommentLines ".md" (some ['/', '/', 'x', '\n', '#', ' ', 'h']) = 0 :=
  c6_no_predicate_zero_comments.1 ".md" (some ['/', '/', 'x', '\n', '#', ' ', 'h']) rfl

/-- C3: after any sequence of `Counter.Inc` calls from a fresh
counter, the reported total file count equals the sum over all
extensions of the per-extension file counts. -/
theorem c3_total_eq_sum_ext_counts (calls : List (String × Int × Int × Int)) :
    (applyCalls NewCounter calls).Value
      = sumValues (applyCalls NewCounter calls).ExtCounts := by
  simp only [Counter.Value, Counter.ExtCounts, applyCalls_total, applyCalls_sumByExt]
  simp [NewCounter, sumValues]

/-- C8: the aggregated snapshot is independent of the order in which
the per-file increments are applied — any two permutations of the
same increment sequence produce observationally identical counters,
so re-scanning an unchanged tree yields identical counts. -/
theorem c8_snapshot_order_independent
    (calls calls' : List (String × Int × Int × Int))
    (hperm : List.Perm calls calls') :
    CounterEquiv (applyCalls NewCounter calls) (applyCalls NewCounter calls') := by
  refine ⟨?_, ?_, ?_, ?_, fun e => ?_, fun e => ?_, fun e => ?_⟩
  · simp only [Counter.Value, applyCalls_total, hperm.length_eq]
  · simp only [applyCalls_totalFiles, hperm.length_eq]
  · simp only [Counter.EmptyLines, applyCalls_emptyLines, (hperm.map _).sum_eq]
  · simp only [Counter.Lines, applyCalls_sumLinesByExt, (hperm.map _).sum_eq]
  · simp only [Counter.ExtCounts, applyCalls_byExt, (hperm.map _).sum_eq]
  · simp only [Counter.LinesByExt, applyCalls_linesByExt, (hperm.map _).sum_eq]
  · simp only [Counter.CommentLinesByExt, applyCalls_commentLinesByExt, (hperm.map _).sum_eq]

theorem c8_witness :
    (applyCalls NewCounter [(".go", 10, 2, 3), (".js", 5, 1, 0)]).Value
      = (applyCalls NewCounter [(".js", 5, 1, 0), (".go", 10, 2, 3)]).Value :=
  (c8_snapshot_order_independent
    [(".go", 10, 2, 3), (".js", 5, 1, 0)]
    [(".js", 5, 1, 0), (".go", 10, 2, 3)]
    (List.Perm.swap (".js", 5, 1, 0) (".go", 10, 2, 3) [])).1

/-- C1 counterexample: a single unreadable `.go` file does change the
counters — the reported total file count after the scan is 1, not 0,
because `Inc` is called with zero line counts even when the read
failed. -/
theorem c1_counterexample :
    (scanEntries fileExtensions ignoreDirs [Entry.file "a.go" none] NewCounter).Value
      ≠ NewCounter.Value := by decide

/-- C1 (amended): an unreadable file whose extension is included
contributes zero to the line, empty-line and comment-line totals, and
the scan continues with the remaining entries, but the file still
adds one to the total file count and to its extension's file count. -/
theorem c1_unreadable_file_zero_lines_one_file
    (name : String) (rest : List Entry) (exts igns : List String) (c : Counter)
    (h : exts.contains (fileExt name) = true) :
    scanEntries exts igns (Entry.file name none :: rest) c
      = scanEntries exts igns rest (processFile (fileExt name) none c)
    ∧ (processFile (fileExt name) none c).Lines = c.Lines
    ∧ (processFile (fileExt name) none c).EmptyLines = c.EmptyLines
    ∧ (∀ e, lookupD (processFile (fileExt name) none c).LinesByExt e
          = lookupD c.LinesByExt e)
    ∧ (∀ e, lookupD (processFile (fileExt name) none c).CommentLinesByExt e
          = lookupD c.CommentLinesByExt e)
    ∧ (processFile (fileExt name) none c).Value = c.Value + 1
    ∧ (processFile (fileExt name) none c).totalFiles = c.totalFiles + 1
    ∧ lookupD (processFile (fileExt name) none c).ExtCounts (fileExt name)
        = lookupD c.ExtCounts (fileExt name) + 1 := by
  refine ⟨?_, ?_, ?_, fun e => ?_, fun e => ?_, ?_, ?_, ?_⟩
  · have h' : fileExt name ∈ exts := by simpa using h
    simp [scanEntries, scanEntry, h']
  · simp [processFile, Counter.Inc, Counter.Lines, countLines, sumValues_mapIncr]
  · simp [processFile, Counter.Inc, Counter.EmptyLines, countEmptyLines]
  · simp [processFile, Counter.Inc, Counter.LinesByExt, countLines, lookupD_mapIncr]
  · simp [processFile, Counter.Inc, Counter.CommentLinesByExt, countCommentLines,
      lookupD_mapIncr]
    cases CommentParsers (fileExt name) <;> simp
  · simp [processFile, Counter.Inc, Counter.Value]
  · simp [processFile, Counter.Inc]
  · simp [processFile, Counter.Inc, Counter.ExtCounts, lookupD_mapIncr]

theorem c1_amended_witness :
    (processFile (fileExt "a.go") none NewCounter).totalFiles
      = NewCounter.totalFiles + 1 :=
  (c1_unreadable_file_zero_lines_one_file "a.go" [] fileExtensions ignoreDirs
    NewCounter (by decide)).2.2.2.2.2.2.1

/-- C10: the map returned by `ExtCounts` is a fresh copy — writing
into it leaves every map the counter owns unchanged (while its initial
contents equal `byExt`'s) — whereas `LinesByExt` and
`CommentLinesByExt` return the counter's own live references, so
writing through them is visible in subsequent reads. -/
theorem c10_extcounts_copy_others_live
    (c : CounterRefs) (h : Heap) (hwf : c.wf h) (m : List (String × Int)) :
    (((c.ExtCounts h).2.write (c.ExtCounts h).1 m).read c.byExt = h.read c.byExt
      ∧ ((c.ExtCounts h).2.write (c.ExtCounts h).1 m).read c.linesByExt
          = h.read c.linesByExt
      ∧ ((c.ExtCounts h).2.write (c.ExtCounts h).1 m).read c.commentLinesByExt
          = h.read c.commentLinesByExt
      ∧ (c.ExtCounts h).2.read (c.ExtCounts h).1 = h.read c.byExt)
    ∧ (h.write (c.LinesByExt h) m).read c.linesByExt = m
    ∧ (h.write (c.CommentLinesByExt h) m).read c.commentLinesByExt = m := by
  obtain ⟨h1, h2, h3⟩ := hwf
  refine ⟨⟨?_, ?_, ?_, ?_⟩, ?_, ?_⟩ <;>
    simp [CounterRefs.ExtCounts, CounterRefs.LinesByExt, CounterRefs.CommentLinesByExt,
      Heap.alloc, Heap.write, Heap.read, Nat.ne_of_lt h1, Nat.ne_of_lt h2, Nat.ne_of_lt h3]

theorem c10_witness :
    ((cRefsW.ExtCounts heapW).2.write (cRefsW.ExtCounts heapW).1 [("x", 5)]).read
        cRefsW.byExt = heapW.read cRefsW.byExt
    ∧ (heapW.write (cRefsW.LinesByExt heapW) [("x", 5)]).read cRefsW.linesByExt
        = [("x", 5)] :=
  ⟨(c10_extcounts_copy_others_live cRefsW heapW ⟨by decide, by decide, by decide⟩
      [("x", 5)]).1.1,
   (c10_extcounts_copy_others_live cRefsW heapW ⟨by decide, by decide, by decide⟩
      [("x", 5)]).2.1⟩

end CodeStats
